import Mathlib

/-!
# Verification of the code-recovery core of `prototipo5.py`

This file embeds, in Lean, the code-recovery engine of the repository
`ocr-codigos-catalogo` (file `prototipo5.py`): the combinatorial
substitution expansion (`list_substitutions`, `expand_with_substitutions`)
and the per-page search pipeline (`search_codes`), together with a model of
the fragment of Python's `re` module that `search_codes` uses
(`re.finditer` on a pattern of the shape `code_header + "(" + code_pattern
+ ")"`, followed by `match.group(1)`).

Modelling choices:

* Python strings are Lean `String`s; a Python `dict` of single-character
  keys to strings (the substitution map) is a Lean function
  `Char → Option String` (`none` models absence of the key).
* Python sets of strings are modelled as duplicate-free Lean lists
  (`List.dedup` plays the role of the `set(...)` constructor); set-level
  statements are phrased through membership, which is insensitive to order.
* A Python dict used as a mapping from page identifiers is an association
  list `List (Nat × String)` in insertion order (Python dicts preserve
  insertion order and have unique keys).
* A raised Python exception is `Except.error`; a run that raises returns no
  per-page results at all, like the Python function.
* `itertools.product` on a list of character lists is `listProd`.
* Python's `re` module is external to the repository, so the needed
  fragment is modelled here: an abstract syntax `Regex`, a parser
  `parseRegex` for the pattern subset the program uses (literals, escapes
  `\s`/`\d`/`\w` and escaped metacharacters, character classes with ranges,
  greedy `*`, exact repetition of the shape left-brace n right-brace), and
  a backtracking matcher implementing leftmost, greedy, non-overlapping
  `finditer` semantics.  A pattern outside the subset is treated as
  malformed (`parseRegex` returns `none`); the genuinely malformed patterns
  used below (an unmatched parenthesis) are also rejected by Python.
-/

/-! ## Model of `itertools.product` over lists of characters -/

/-- Prepend `x` to every list in `tails`. -/
def consAll {α : Type} (x : α) (tails : List (List α)) : List (List α) :=
  tails.map (fun t => x :: t)

/-- One level of the cartesian product: choose the head from `xs`,
the tail from `tails`, in the order `itertools.product` uses
(leftmost factor varies slowest). -/
def prodStep {α : Type} : List α → List (List α) → List (List α)
  | [], _ => []
  | x :: xs, tails => consAll x tails ++ prodStep xs tails

/-- Model of `itertools.product(*factors)`: all tuples, as lists, with the
rightmost factor varying fastest. -/
def listProd {α : Type} : List (List α) → List (List α)
  | [] => [[]]
  | xs :: rest => prodStep xs (listProd rest)

/-! ## The substitution expander (`list_substitutions`,
`expand_with_substitutions`) -/

/-- The per-position alternative lists of `list_substitutions`:
`sub_space = [substitutions[c] if c in substitutions else c for c in st]`.
A mapped character contributes the characters of the mapped-to string, an
unmapped character contributes itself. -/
def sub_space (substitutions : Char → Option String) (st : String) :
    List (List Char) :=
  st.toList.map (fun c =>
    match substitutions c with
    | some s => s.toList
    | none => [c])

/-- Embedding of `list_substitutions(st, substitutions)`:
`["".join(sub) for sub in itertools.product(*sub_space)]`. -/
def list_substitutions (st : String) (substitutions : Char → Option String) :
    List String :=
  (listProd (sub_space substitutions st)).map (fun sub => String.mk sub)

/-- Embedding of `expand_with_substitutions(codes, substitutions)`: the
loop `for code in codes: extended_codes.extend(list_substitutions(code,
substitutions))`, with the iteration order of the Python set `codes` made
explicit as a list. -/
def expand_with_substitutions (codes : List String)
    (substitutions : Char → Option String) : List String :=
  match codes with
  | [] => []
  | code :: rest =>
      list_substitutions code substitutions ++
        expand_with_substitutions rest substitutions

/-! ## Model of the `re` fragment used by `search_codes` -/

/-- Abstract syntax for the regex subset: empty pattern, a character class
given by inclusive ranges (a literal `c` is the class with the single range
`(c, c)`), concatenation, and greedy Kleene star. Exact repetition
is desugared by the parser into iterated concatenation. -/
inductive Regex : Type where
  | epsilon : Regex
  | cls : List (Char × Char) → Regex
  | seq : Regex → Regex → Regex
  | star : Regex → Regex
deriving Repr, DecidableEq

/-- Does character `c` fall in one of the inclusive ranges? -/
def matchCls (ranges : List (Char × Char)) (c : Char) : Bool :=
  ranges.any (fun r => r.1.val ≤ c.val && c.val ≤ r.2.val)

/-- The metacharacters of Python regexes: bare occurrences outside the
supported constructs make the pattern fall outside the modelled subset. -/
def metachars : List Char :=
  ['(', ')', '[', ']', '*', '+', '?', '|', '.', '^', '$', '\\']

/-- Modelled from Python `re` escape syntax: `\s`, `\d`, `\w` become the
corresponding character classes (ASCII fragment); an escaped metacharacter
becomes a literal; anything else is outside the subset. -/
def escClass (c : Char) : Option Regex :=
  if c = 's' then
    some (.cls [(' ', ' '), ('\t', '\t'), ('\n', '\n'), ('\r', '\r'),
      (Char.ofNat 11, Char.ofNat 11), (Char.ofNat 12, Char.ofNat 12)])
  else if c = 'd' then some (.cls [('0', '9')])
  else if c = 'w' then
    some (.cls [('a', 'z'), ('A', 'Z'), ('0', '9'), ('_', '_')])
  else if c ∈ metachars then some (.cls [(c, c)])
  else none

/-- Parse the items of a character class up to the closing bracket:
single characters and ranges `a-z`. -/
def parseClassItems : List Char → Option (List (Char × Char) × List Char)
  | [] => none
  | ']' :: rest => some ([], rest)
  | a :: '-' :: b :: rest =>
      if a = '\\' ∨ b = ']' ∨ b = '\\' then none
      else (fun p => ((a, b) :: p.1, p.2)) <$> parseClassItems rest
  | a :: rest =>
      if a = '\\' then none
      else (fun p => ((a, a) :: p.1, p.2)) <$> parseClassItems rest

/-- Parse the decimal repetition count after a left brace, up to the
right brace. -/
def parseBraceAux : List Char → Nat → Option (Nat × List Char)
  | [], _ => none
  | c :: rest, acc =>
      if c = '}' then some (acc, rest)
      else if c.isDigit then parseBraceAux rest (acc * 10 + (c.toNat - 48))
      else none

/-- Parse a repetition count: at least one digit, then the right brace. -/
def parseBrace : List Char → Option (Nat × List Char)
  | [] => none
  | c :: rest => if c.isDigit then parseBraceAux (c :: rest) 0 else none

/-- Parse one atom: an escape, a character class, or a literal character. -/
def parseAtom : List Char → Option (Regex × List Char)
  | [] => none
  | '\\' :: c :: rest => (fun r => (r, rest)) <$> escClass c
  | '[' :: rest =>
      match parseClassItems rest with
      | some (items, rest') =>
          if items.isEmpty then none else some (.cls items, rest')
      | none => none
  | c :: rest =>
      if c ∈ metachars then none else some (.cls [(c, c)], rest)

/-- Parse a sequence of atoms with optional postfix `*` or exact
repetition; `fuel` bounds the number of atoms (each consumes at least one
character, so `length + 1` always suffices). -/
def parseSeqFuel : Nat → List Char → Option (List Regex)
  | _, [] => some []
  | 0, _ :: _ => none
  | fuel + 1, l =>
      match parseAtom l with
      | none => none
      | some (atom, rest) =>
          match rest with
          | '*' :: rest' =>
              (fun t => Regex.star atom :: t) <$> parseSeqFuel fuel rest'
          | '{' :: rest' =>
              match parseBrace rest' with
              | none => none
              | some (n, rest'') =>
                  (fun t => List.replicate n atom ++ t) <$>
                    parseSeqFuel fuel rest''
          | _ => (fun t => atom :: t) <$> parseSeqFuel fuel rest

/-- Modelled from Python `re.compile` on the supported subset: parse a
pattern string to the abstract syntax, `none` meaning the pattern is
malformed (or outside the modelled subset). -/
def parseRegex (pat : String) : Option Regex :=
  (parseSeqFuel (pat.toList.length + 1) pat.toList).map
    (fun l => l.foldr Regex.seq Regex.epsilon)

/-- Backtracking matcher: the list of possible remainders of `s` after
matching `r` at its start, in Python's backtracking priority order (greedy
quantifiers try longer matches first). `fuel` bounds recursion; every
recursive call decreases it, and star iterations are required to consume
at least one character, matching Python's behaviour on the parsed subset
(star is only ever applied to a character class, which never matches
empty). -/
def rmatch : Nat → Regex → List Char → List (List Char)
  | 0, _, _ => []
  | _ + 1, .epsilon, s => [s]
  | _ + 1, .cls ranges, s =>
      match s with
      | [] => []
      | c :: t => if matchCls ranges c then [t] else []
  | fuel + 1, .seq a b, s => (rmatch fuel a s).flatMap (rmatch fuel b)
  | fuel + 1, .star r, s =>
      ((rmatch fuel r s).filter (fun t => t.length < s.length)).flatMap
        (fun t => rmatch fuel (.star r) t) ++ [s]

/-- Syntactic size of a regex, used only to pick a sufficient fuel. -/
def rsize : Regex → Nat
  | .epsilon => 1
  | .cls _ => 1
  | .seq a b => rsize a + rsize b + 1
  | .star r => rsize r + 1

/-- Fuel that always suffices for `rmatch`: along every path each star
iteration consumes a character and each `seq` descends in the syntax
tree. -/
def matchFuel (r : Regex) (s : List Char) : Nat :=
  (rsize r + 1) * (s.length + 2)

/-- The leftmost-greedy match of `header` followed by `code` at the start
of `s`: the pair (remainder after `header`, remainder after `code`) of the
highest-priority overall match, or `none`. This is how group 1 of
`code_header + "(" + code_pattern + ")"` is delimited. -/
def firstMatch (header code : Regex) (s : List Char) :
    Option (List Char × List Char) :=
  ((rmatch (matchFuel header s) header s).flatMap (fun hrem =>
    (rmatch (matchFuel code hrem) code hrem).map (fun crem =>
      (hrem, crem)))).head?

/-- Modelled from Python `re.finditer` semantics: scan left to right; at
each position try the composed pattern; on a match emit group 1 (the part
consumed by `code`) and resume after the match, advancing by one position
on a zero-width match; on failure advance by one position. `fuel` bounds
the scan (the suffix shrinks at every step, so `length + 1` suffices). -/
def findIterAux : Nat → Regex → Regex → List Char → List String
  | 0, _, _, _ => []
  | fuel + 1, header, code, s =>
      match firstMatch header code s with
      | none =>
          match s with
          | [] => []
          | _ :: s' => findIterAux fuel header code s'
      | some (hrem, crem) =>
          let g1 := String.mk (hrem.take (hrem.length - crem.length))
          if crem.length < s.length then
            g1 :: findIterAux fuel header code crem
          else
            match s with
            | [] => [g1]
            | _ :: s' => g1 :: findIterAux fuel header code s'

/-- All group-1 values of the non-overlapping matches of
`header ++ "(" ++ code ++ ")"` in `text`, leftmost first. -/
def findIter (header code : Regex) (text : String) : List String :=
  findIterAux (text.toList.length + 1) header code text.toList

/-- Modelled from Python: `re.finditer(code_header + "(" + code_pattern +
")", text)` followed by `match.group(1)` on every match. The two pattern
pieces are parsed separately — the single capture group of the composed
pattern is exactly the parenthesised `code_pattern` — and a malformed
piece raises (`Except.error`), as `re` raises `re.error` at the
`finditer` call. -/
def reFinditer1 (code_header code_pattern text : String) :
    Except Unit (List String) :=
  match parseRegex code_header, parseRegex code_pattern with
  | some h, some c => .ok (findIter h c text)
  | _, _ => .error ()

/-! ## The search pipeline (`search_codes`) -/

/-- The page loop of `search_codes`: for each page, collect the group-1
matches into a set (`dedup`), optionally replace that set by the set of
its expansions under the substitution map, and intersect with the valid
codes; an exception at any page aborts the whole call with no results. -/
def search_codes_aux (valid_codes : List String)
    (code_pattern code_header : String)
    (substitutions : Option (Char → Option String)) :
    List (Nat × String) →
      Except Unit (List (Nat × List String) × List (Nat × List String))
  | [] => .ok ([], [])
  | (page, text) :: rest =>
      match reFinditer1 code_header code_pattern text with
      | .error e => .error e
      | .ok ms =>
          let tent0 := ms.dedup
          let tent :=
            match substitutions with
            | none => tent0
            | some m => (expand_with_substitutions tent0 m).dedup
          let found := tent.filter (fun s => decide (s ∈ valid_codes))
          match search_codes_aux valid_codes code_pattern code_header
              substitutions rest with
          | .error e => .error e
          | .ok (fr, tr) =>
              .ok ((page, found) :: fr, (page, tent) :: tr)

/-- Embedding of `search_codes(texts, valid_codes, code_pattern,
code_header, show_tentative, substitutions)`. The returned pair is
(`codes_found`, `tentative_codes`); the Python function returns the
tentative dict only when `show_tentative` is true, modelled by the
`Option`. -/
def search_codes (texts : List (Nat × String)) (valid_codes : List String)
    (code_pattern : String) (code_header : String)
    (show_tentative : Bool)
    (substitutions : Option (Char → Option String)) :
    Except Unit
      (List (Nat × List String) × Option (List (Nat × List String))) :=
  match search_codes_aux valid_codes code_pattern code_header
      substitutions texts with
  | .error e => .error e
  | .ok (found, tent) =>
      .ok (found, if show_tentative then some tent else none)

/-! ## Concrete instances used in scenarios and counterexamples -/

/-- The substitution map of Scenario A: `O` may really be `O` or `0`. -/
def mapO : Char → Option String :=
  fun c => if c = 'O' then some "O0" else none

/-- A map sending `O` to the empty alternative string. -/
def mapOEmpty : Char → Option String :=
  fun c => if c = 'O' then some "" else none

/-! ## Helper characterisations -/

/-- The tentative set recorded for one page: the deduplicated group-1
matches, replaced by the set of their expansions when a substitution map
is supplied. -/
def pageTent (h c : Regex) (subs : Option (Char → Option String))
    (text : String) : List String :=
  match subs with
  | none => (findIter h c text).dedup
  | some m =>
      (expand_with_substitutions ((findIter h c text).dedup) m).dedup

lemma prodStep_nil {α : Type} (xs : List α) :
    prodStep xs ([] : List (List α)) = [] := by
  induction xs <;> simp [prodStep, consAll, *]

lemma mem_prodStep {α : Type} {xs : List α} {tails : List (List α)}
    {l : List α} :
    l ∈ prodStep xs tails ↔ ∃ x, x ∈ xs ∧ ∃ t, t ∈ tails ∧ l = x :: t := by
  induction xs with
  | nil => simp [prodStep]
  | cons y ys ih =>
      simp only [prodStep, consAll, List.mem_append, List.mem_map, ih,
        List.mem_cons]
      constructor
      · rintro (⟨t, ht, rfl⟩ | ⟨x, hx, t, ht, rfl⟩)
        · exact ⟨y, Or.inl rfl, t, ht, rfl⟩
        · exact ⟨x, Or.inr hx, t, ht, rfl⟩
      · rintro ⟨x, hx | hx, t, ht, rfl⟩
        · subst hx
          exact Or.inl ⟨t, ht, rfl⟩
        · exact Or.inr ⟨x, hx, t, ht, rfl⟩

lemma length_prodStep {α : Type} (xs : List α) (tails : List (List α)) :
    (prodStep xs tails).length = xs.length * tails.length := by
  induction xs with
  | nil => simp [prodStep]
  | cons y ys ih => simp [prodStep, consAll, ih]; ring

lemma length_listProd {α : Type} (ls : List (List α)) :
    (listProd ls).length = (ls.map List.length).prod := by
  induction ls with
  | nil => simp [listProd]
  | cons xs rest ih => simp [listProd, length_prodStep, ih]

lemma length_of_mem_listProd {α : Type} :
    ∀ {ls : List (List α)} {l : List α},
      l ∈ listProd ls → l.length = ls.length := by
  intro ls
  induction ls with
  | nil =>
      intro l hl
      simp only [listProd, List.mem_singleton] at hl
      subst hl
      rfl
  | cons xs rest ih =>
      intro l hl
      simp only [listProd] at hl
      rw [mem_prodStep] at hl
      obtain ⟨x, _, t, ht, rfl⟩ := hl
      simp [ih ht]

lemma listProd_eq_nil {α : Type} :
    ∀ {ls : List (List α)}, ([] : List α) ∈ ls → listProd ls = [] := by
  intro ls
  induction ls with
  | nil => intro h; cases h
  | cons xs rest ih =>
      intro h
      rcases List.mem_cons.mp h with h1 | h2
      · rw [← h1]
        simp [listProd, prodStep]
      · simp [listProd, ih h2, prodStep_nil]

lemma mem_expand_iff (codes : List String)
    (subs : Char → Option String) (x : String) :
    x ∈ expand_with_substitutions codes subs ↔
      ∃ code, code ∈ codes ∧ x ∈ list_substitutions code subs := by
  induction codes with
  | nil => simp [expand_with_substitutions]
  | cons code rest ih =>
      simp only [expand_with_substitutions, List.mem_append, ih,
        List.mem_cons]
      constructor
      · rintro (hx | ⟨code', hc, hx⟩)
        · exact ⟨code, Or.inl rfl, hx⟩
        · exact ⟨code', Or.inr hc, hx⟩
      · rintro ⟨code', hc | hc, hx⟩
        · subst hc
          exact Or.inl hx
        · exact Or.inr ⟨code', hc, hx⟩

lemma search_codes_aux_forall2 (valid_codes : List String)
    (cp ch : String) (subs : Option (Char → Option String)) :
    ∀ (texts : List (Nat × String)) (f t : List (Nat × List String)),
      search_codes_aux valid_codes cp ch subs texts = .ok (f, t) →
      List.Forall₂ (fun pf pt : Nat × List String =>
        pf.1 = pt.1 ∧ ∀ x, x ∈ pf.2 ↔ (x ∈ pt.2 ∧ x ∈ valid_codes)) f t := by
  intro texts
  induction texts with
  | nil =>
      intro f t hok
      simp only [search_codes_aux, Except.ok.injEq, Prod.mk.injEq] at hok
      obtain ⟨rfl, rfl⟩ := hok
      exact List.Forall₂.nil
  | cons pg rest ih =>
      intro f t hok
      obtain ⟨page, text⟩ := pg
      simp only [search_codes_aux] at hok
      cases hm : reFinditer1 ch cp text with
      | error e => rw [hm] at hok; exact absurd hok (by simp)
      | ok ms =>
          rw [hm] at hok
          cases hrec : search_codes_aux valid_codes cp ch subs rest with
          | error e => rw [hrec] at hok; exact absurd hok (by simp)
          | ok p =>
              obtain ⟨fr, tr⟩ := p
              rw [hrec] at hok
              simp only [Except.ok.injEq, Prod.mk.injEq] at hok
              obtain ⟨rfl, rfl⟩ := hok
              refine List.Forall₂.cons ⟨rfl, ?_⟩ (ih fr tr hrec)
              intro x
              simp [List.mem_filter]

lemma search_codes_aux_keys (valid_codes : List String)
    (cp ch : String) (subs : Option (Char → Option String)) :
    ∀ (texts : List (Nat × String)) (f t : List (Nat × List String)),
      search_codes_aux valid_codes cp ch subs texts = .ok (f, t) →
      f.map Prod.fst = texts.map Prod.fst ∧
        t.map Prod.fst = texts.map Prod.fst := by
  intro texts
  induction texts with
  | nil =>
      intro f t hok
      simp only [search_codes_aux, Except.ok.injEq, Prod.mk.injEq] at hok
      obtain ⟨rfl, rfl⟩ := hok
      simp
  | cons pg rest ih =>
      intro f t hok
      obtain ⟨page, text⟩ := pg
      simp only [search_codes_aux] at hok
      cases hm : reFinditer1 ch cp text with
      | error e => rw [hm] at hok; exact absurd hok (by simp)
      | ok ms =>
          rw [hm] at hok
          cases hrec : search_codes_aux valid_codes cp ch subs rest with
          | error e => rw [hrec] at hok; exact absurd hok (by simp)
          | ok p =>
              obtain ⟨fr, tr⟩ := p
              rw [hrec] at hok
              simp only [Except.ok.injEq, Prod.mk.injEq] at hok
              obtain ⟨rfl, rfl⟩ := hok
              obtain ⟨h1, h2⟩ := ih fr tr hrec
              simp [h1, h2]

lemma search_codes_aux_eq_of_parses (valid_codes : List String)
    (cp ch : String) (subs : Option (Char → Option String))
    (h c : Regex) (hh : parseRegex ch = some h) (hc : parseRegex cp = some c) :
    ∀ texts : List (Nat × String),
      search_codes_aux valid_codes cp ch subs texts =
        .ok (texts.map (fun pg => (pg.1,
              (pageTent h c subs pg.2).filter
                (fun s => decide (s ∈ valid_codes)))),
             texts.map (fun pg => (pg.1, pageTent h c subs pg.2))) := by
  intro texts
  induction texts with
  | nil => simp [search_codes_aux]
  | cons pg rest ih =>
      obtain ⟨page, text⟩ := pg
      simp only [search_codes_aux, reFinditer1, hh, hc, ih, pageTent]
      cases subs <;> simp

lemma search_codes_aux_parses_of_ok (valid_codes : List String)
    (cp ch : String) (subs : Option (Char → Option String))
    (page : Nat) (text : String) (rest : List (Nat × String))
    (r : List (Nat × List String) × List (Nat × List String))
    (hok : search_codes_aux valid_codes cp ch subs ((page, text) :: rest) =
      .ok r) :
    ∃ h c, parseRegex ch = some h ∧ parseRegex cp = some c := by
  simp only [search_codes_aux, reFinditer1] at hok
  cases hH : parseRegex ch with
  | none => rw [hH] at hok; exact absurd hok (by simp)
  | some h =>
      cases hC : parseRegex cp with
      | none => rw [hH, hC] at hok; exact absurd hok (by simp)
      | some c => exact ⟨h, c, rfl, rfl⟩

lemma search_codes_ok_elim (texts : List (Nat × String))
    (valid_codes : List String) (cp ch : String) (st : Bool)
    (subs : Option (Char → Option String))
    (found : List (Nat × List String))
    (tentOpt : Option (List (Nat × List String)))
    (hok : search_codes texts valid_codes cp ch st subs =
      .ok (found, tentOpt)) :
    ∃ t, search_codes_aux valid_codes cp ch subs texts = .ok (found, t) ∧
      tentOpt = if st then some t else none := by
  unfold search_codes at hok
  cases haux : search_codes_aux valid_codes cp ch subs texts with
  | error e => rw [haux] at hok; exact absurd hok (by simp)
  | ok p =>
      obtain ⟨f, t⟩ := p
      rw [haux] at hok
      simp only [Except.ok.injEq, Prod.mk.injEq] at hok
      obtain ⟨rfl, rfl⟩ := hok
      exact ⟨t, rfl, rfl⟩

/-! ## Claims -/

/-- Claim C1: for every run that completes, each page's validated set is
exactly the intersection of the page's candidate set with the catalog: a
string is validated iff it is in the candidate set and among the valid
codes, with no normalisation applied. -/
theorem validated_is_intersection (texts : List (Nat × String))
    (valid_codes : List String) (cp ch : String)
    (subs : Option (Char → Option String))
    (found tent : List (Nat × List String))
    (hok : search_codes texts valid_codes cp ch true subs =
      .ok (found, some tent)) :
    List.Forall₂ (fun pf pt : Nat × List String =>
      pf.1 = pt.1 ∧ ∀ x, x ∈ pf.2 ↔ (x ∈ pt.2 ∧ x ∈ valid_codes))
      found tent := by
  obtain ⟨t, haux, hsel⟩ :=
    search_codes_ok_elim texts valid_codes cp ch true subs found
      (some tent) hok
  simp only [if_true, Option.some.injEq] at hsel
  subst hsel
  exact search_codes_aux_forall2 valid_codes cp ch subs texts found tent haux

/-- Witness for claim C1: Scenario A completes and its hypothesis holds. -/
theorem validated_is_intersection_witness :
    List.Forall₂ (fun pf pt : Nat × List String =>
      pf.1 = pt.1 ∧ ∀ x, x ∈ pf.2 ↔ (x ∈ pt.2 ∧ x ∈ ["00123"]))
      [(1, ["00123"])] [(1, ["O0123", "00123"])] :=
  validated_is_intersection [(1, "REF: O0123")] ["00123"] "[A-Z0-9]{5}"
    "REF:\\s*" (some mapO) [(1, ["00123"])] [(1, ["O0123", "00123"])] rfl

/-- Claim C2: the number of candidates `list_substitutions` produces is
the product, over the token's character positions, of 1 for an unmapped
character and of the length of the mapped-to string for a mapped one. -/
theorem list_substitutions_length (st : String)
    (subs : Char → Option String) :
    (list_substitutions st subs).length =
      (st.toList.map (fun c =>
        match subs c with
        | some s => s.length
        | none => 1)).prod := by
  unfold list_substitutions sub_space
  rw [List.length_map, length_listProd, List.map_map]
  have hpt : (List.length ∘ fun c : Char =>
      match subs c with
      | some s => s.toList
      | none => [c]) = fun c : Char =>
      match subs c with
      | some s => s.length
      | none => 1 := by
    funext c
    simp only [Function.comp_apply]
    cases hsc : subs c <;> rfl
  rw [hpt]

/-- Counterexample to claim C3 as stated: on the one-page text `O` with
code pattern `[A-Z]` and the substitution map sending `O` to `O0`, the
tentative set recorded in the page's result is the post-expansion
candidate set: it contains `0`, which is not among the raw pattern
matches (the pre-expansion tentative set is exactly the one-element
set holding `O`). -/
theorem tentative_overwritten_counterexample :
    search_codes [(1, "O")] [] "[A-Z]" "" true (some mapO) =
      .ok ([(1, [])], some [(1, ["O", "0"])]) ∧
    reFinditer1 "" "[A-Z]" "O" = .ok ["O"] ∧
    "0" ∈ (["O", "0"] : List String) ∧ "0" ∉ (["O"] : List String) :=
  ⟨rfl, rfl, by decide, by decide⟩

/-- Claim C3 (amended): when a substitution map is supplied, the
tentative set recorded in each page's result is the post-expansion
candidate set, not the pre-expansion one: a string is recorded for a page
exactly when it is an expansion of some raw pattern match of that page
(the pre-expansion set is recorded only when no map is supplied). -/
theorem tentative_is_expanded (texts : List (Nat × String))
    (valid_codes : List String) (cp ch : String)
    (m : Char → Option String) (h c : Regex)
    (hh : parseRegex ch = some h) (hc : parseRegex cp = some c)
    (found tent : List (Nat × List String))
    (hok : search_codes texts valid_codes cp ch true (some m) =
      .ok (found, some tent)) :
    List.Forall₂ (fun (pg : Nat × String) (pr : Nat × List String) =>
      pr.1 = pg.1 ∧
      ∀ x, x ∈ pr.2 ↔ ∃ tok, tok ∈ findIter h c pg.2 ∧
        x ∈ list_substitutions tok m) texts tent := by
  obtain ⟨t, haux, hsel⟩ :=
    search_codes_ok_elim texts valid_codes cp ch true (some m) found
      (some tent) hok
  simp only [if_true, Option.some.injEq] at hsel
  subst hsel
  rw [search_codes_aux_eq_of_parses valid_codes cp ch (some m) h c hh hc]
    at haux
  simp only [Except.ok.injEq, Prod.mk.injEq] at haux
  obtain ⟨-, rfl⟩ := haux
  rw [List.forall₂_map_right_iff, List.forall₂_same]
  intro pg _
  refine ⟨rfl, fun x => ?_⟩
  simp [pageTent, List.mem_dedup, mem_expand_iff]

/-- Witness for the amended claim C3, at the counterexample's input. -/
theorem tentative_is_expanded_witness :
    List.Forall₂ (fun (pg : Nat × String) (pr : Nat × List String) =>
      pr.1 = pg.1 ∧
      ∀ x, x ∈ pr.2 ↔ ∃ tok, tok ∈ findIter Regex.epsilon
          (Regex.seq (Regex.cls [('A', 'Z')]) Regex.epsilon) pg.2 ∧
        x ∈ list_substitutions tok mapO)
      [(1, "O")] [(1, ["O", "0"])] :=
  tentative_is_expanded [(1, "O")] [] "[A-Z]" "" mapO Regex.epsilon
    (Regex.seq (Regex.cls [('A', 'Z')]) Regex.epsilon) rfl rfl
    [(1, [])] [(1, ["O", "0"])] rfl

/-- Claim C4: Scenario A. On the single page `REF: O0123` with header
pattern `REF:` followed by optional whitespace, five-character
alphanumeric code pattern, the map sending `O` to the alternatives `O`
and `0`, and the one-element catalog holding `00123`: extraction yields
the tentative set holding exactly `O0123`, expansion of that set yields
exactly `O0123` and `00123`, and validation yields exactly `00123`. -/
theorem scenario_a :
    reFinditer1 "REF:\\s*" "[A-Z0-9]{5}" "REF: O0123" = .ok ["O0123"] ∧
    (expand_with_substitutions ["O0123"] mapO).dedup =
      ["O0123", "00123"] ∧
    search_codes [(1, "REF: O0123")] ["00123"] "[A-Z0-9]{5}" "REF:\\s*"
      true (some mapO) =
      .ok ([(1, ["00123"])], some [(1, ["O0123", "00123"])]) :=
  ⟨rfl, rfl, rfl⟩

/-- Claim C5: expanding a set of tokens is the union over the tokens of
each token's individual expansion — a homomorphism from set union to set
union — never a joint product across tokens: an element is produced from
a set exactly when some single token of the set expands to it, and the
expansion of a union of two sets is the union of their expansions. -/
theorem expand_set_is_union (codes₁ codes₂ : List String)
    (subs : Char → Option String) (x : String) :
    (x ∈ expand_with_substitutions codes₁ subs ↔
      ∃ code, code ∈ codes₁ ∧ x ∈ list_substitutions code subs) ∧
    (x ∈ expand_with_substitutions (codes₁ ++ codes₂) subs ↔
      (x ∈ expand_with_substitutions codes₁ subs ∨
        x ∈ expand_with_substitutions codes₂ subs)) := by
  refine ⟨mem_expand_iff codes₁ subs x, ?_⟩
  simp only [mem_expand_iff, List.mem_append, or_and_right, exists_or]

/-- Counterexample to claim C6 as stated: with the malformed code pattern
consisting of a lone opening parenthesis and an empty pages mapping, no
configuration error is raised at all — the search returns empty result
mappings normally. -/
theorem malformed_empty_pages_counterexample :
    parseRegex "(" = none ∧
    search_codes [] [] "(" "" true none = .ok ([], some []) :=
  ⟨rfl, rfl⟩

/-- Claim C6 (amended): a malformed header or code pattern raises the
error when the first page is processed (before that page's text is
scanned), aborting the run with no per-page result for any page; when the
pages mapping is empty the pattern is never compiled and no error is
raised. -/
theorem malformed_raises_on_first_page (texts : List (Nat × String))
    (valid_codes : List String) (cp ch : String) (st : Bool)
    (subs : Option (Char → Option String))
    (hne : texts ≠ [])
    (hbad : parseRegex ch = none ∨ parseRegex cp = none) :
    search_codes texts valid_codes cp ch st subs = .error () := by
  cases texts with
  | nil => exact absurd rfl hne
  | cons pg rest =>
      obtain ⟨page, text⟩ := pg
      have hfe : reFinditer1 ch cp text = .error () := by
        unfold reFinditer1
        rcases hbad with hb | hb
        · rw [hb]
        · rw [hb]
          cases parseRegex ch <;> rfl
      simp [search_codes, search_codes_aux, hfe]

/-- Witness for the amended claim C6: one page, malformed code pattern. -/
theorem malformed_raises_on_first_page_witness :
    search_codes [(1, "x")] [] "(" "" true none = .error () :=
  malformed_raises_on_first_page [(1, "x")] [] "(" "" true none
    (by simp) (Or.inr rfl)

/-- Claim C7: for a well-formed pattern pair, a page raises no error and
its tentative set is the deduplication of the group-1 values of the
non-overlapping matches of the composed pattern built from the header and
the parenthesised code pattern; when there is no match the result is the
empty set, still without error. -/
theorem extraction_dedups_matches (p : Nat) (text : String)
    (valid_codes : List String) (cp ch : String) (h c : Regex)
    (hh : parseRegex ch = some h) (hc : parseRegex cp = some c) :
    ∃ found, search_codes [(p, text)] valid_codes cp ch true none =
        .ok (found, some [(p, (findIter h c text).dedup)]) ∧
      reFinditer1 ch cp text = .ok (findIter h c text) ∧
      ((findIter h c text).dedup).Nodup ∧
      (∀ x, x ∈ (findIter h c text).dedup ↔ x ∈ findIter h c text) ∧
      (findIter h c text = [] → (findIter h c text).dedup = []) := by
  refine ⟨[(p, (pageTent h c none text).filter
    (fun s => decide (s ∈ valid_codes)))], ?_, ?_, ?_, ?_, ?_⟩
  · unfold search_codes
    rw [search_codes_aux_eq_of_parses valid_codes cp ch none h c hh hc]
    simp [pageTent]
  · unfold reFinditer1
    rw [hh, hc]
  · exact List.nodup_dedup _
  · intro x
    exact List.mem_dedup
  · intro hnil
    rw [hnil]
    rfl

/-- Witness for claim C7: empty header, literal code pattern, a page with
no match. -/
theorem extraction_dedups_matches_witness :
    ∃ found, search_codes [(1, "b")] [] "a" "" true none =
        .ok (found, some [(1, (findIter Regex.epsilon
          (Regex.seq (Regex.cls [('a', 'a')]) Regex.epsilon) "b").dedup)]) ∧
      reFinditer1 "" "a" "b" = .ok (findIter Regex.epsilon
        (Regex.seq (Regex.cls [('a', 'a')]) Regex.epsilon) "b") ∧
      ((findIter Regex.epsilon
        (Regex.seq (Regex.cls [('a', 'a')]) Regex.epsilon) "b").dedup).Nodup ∧
      (∀ x, x ∈ (findIter Regex.epsilon
          (Regex.seq (Regex.cls [('a', 'a')]) Regex.epsilon) "b").dedup ↔
        x ∈ findIter Regex.epsilon
          (Regex.seq (Regex.cls [('a', 'a')]) Regex.epsilon) "b") ∧
      (findIter Regex.epsilon
          (Regex.seq (Regex.cls [('a', 'a')]) Regex.epsilon) "b" = [] →
        (findIter Regex.epsilon
          (Regex.seq (Regex.cls [('a', 'a')]) Regex.epsilon) "b").dedup =
          []) :=
  extraction_dedups_matches 1 "b" [] "a" "" Regex.epsilon
    (Regex.seq (Regex.cls [('a', 'a')]) Regex.epsilon) rfl rfl

/-- Claim C8: every candidate produced by expanding a token has exactly
the token's length — each position contributes one character, never an
insertion or a deletion. -/
theorem expansion_preserves_length (st : String)
    (subs : Char → Option String) (r : String)
    (hr : r ∈ list_substitutions st subs) : r.length = st.length := by
  unfold list_substitutions at hr
  rw [List.mem_map] at hr
  obtain ⟨sub, hsub, rfl⟩ := hr
  have h1 : sub.length = (sub_space subs st).length :=
    length_of_mem_listProd hsub
  have h2 : (sub_space subs st).length = st.toList.length := by
    simp [sub_space]
  exact h1.trans h2

/-- Witness for claim C8: the candidate `0` from the token `O`. -/
theorem expansion_preserves_length_witness :
    "0" ∈ list_substitutions "O" mapO ∧
      ("0" : String).length = ("O" : String).length :=
  ⟨by decide, expansion_preserves_length "O" mapO "0" (by decide)⟩

/-- Claim C9: the result mappings carry exactly the keys of the input
pages mapping, in order: the validated mapping always, and the tentative
mapping whenever it is returned. -/
theorem result_keys_match_pages (texts : List (Nat × String))
    (valid_codes : List String) (cp ch : String) (st : Bool)
    (subs : Option (Char → Option String))
    (found : List (Nat × List String))
    (tentOpt : Option (List (Nat × List String)))
    (hok : search_codes texts valid_codes cp ch st subs =
      .ok (found, tentOpt)) :
    found.map Prod.fst = texts.map Prod.fst ∧
      ∀ tent, tentOpt = some tent →
        tent.map Prod.fst = texts.map Prod.fst := by
  obtain ⟨t, haux, hsel⟩ :=
    search_codes_ok_elim texts valid_codes cp ch st subs found tentOpt hok
  obtain ⟨h1, h2⟩ :=
    search_codes_aux_keys valid_codes cp ch subs texts found t haux
  refine ⟨h1, fun tent htent => ?_⟩
  rw [htent] at hsel
  cases st with
  | false => simp at hsel
  | true =>
      simp only [if_true, Option.some.injEq] at hsel
      rw [hsel]
      exact h2

/-- Witness for claim C9, at Scenario A. -/
theorem result_keys_match_pages_witness :
    ([(1, ["00123"])] : List (Nat × List String)).map Prod.fst =
      ([(1, "REF: O0123")] : List (Nat × String)).map Prod.fst ∧
      ∀ tent, (some [(1, ["O0123", "00123"])] :
          Option (List (Nat × List String))) = some tent →
        tent.map Prod.fst =
          ([(1, "REF: O0123")] : List (Nat × String)).map Prod.fst :=
  result_keys_match_pages [(1, "REF: O0123")] ["00123"] "[A-Z0-9]{5}"
    "REF:\\s*" true (some mapO) [(1, ["00123"])]
    (some [(1, ["O0123", "00123"])]) rfl

/-- Claim C10: a substitution map sending a character of the token to the
empty alternative string makes the expansion empty — the token itself is
not preserved and contributes no candidates. -/
theorem empty_alternative_empty_expansion (st : String)
    (subs : Char → Option String) (c : Char)
    (hc : c ∈ st.toList) (he : subs c = some "") :
    list_substitutions st subs = [] := by
  unfold list_substitutions
  have hm : ([] : List Char) ∈ sub_space subs st := by
    unfold sub_space
    rw [List.mem_map]
    refine ⟨c, hc, ?_⟩
    rw [he]
    rfl
  rw [listProd_eq_nil hm]
  rfl

/-- Witness for claim C10: the token `O` under the map sending `O` to the
empty string. -/
theorem empty_alternative_empty_expansion_witness :
    ('O' ∈ ("O" : String).toList ∧ mapOEmpty 'O' = some "") ∧
      list_substitutions "O" mapOEmpty = [] :=
  ⟨⟨by decide, rfl⟩,
    empty_alternative_empty_expansion "O" mapOEmpty 'O' (by decide) rfl⟩
